import Mathlib

/-!
Verification development for the lesson-counter schedule checker.

Shallow embedding notes:
* Go `int` fields are modelled as `Int` (no realistic input approaches 64-bit
  overflow; the one place the width matters — the `minSlot` initialiser in
  `calculateGaps` — keeps the literal value `2^63 - 1`).
* `time.Time` values are modelled by their canonical string forms: a calendar
  date by its "2006-01-02" string (which is exactly what `DateString` returns
  and what every grouping key uses) and clock times by their "15:04" strings.
* Go map iteration order is unspecified; wherever the source iterates a map of
  groups we fix a canonical order of the distinct keys (that of `List.dedup`).
  No claim below depends on the order of the output lists, only on their
  per-key contents.
-/

/-- Go struct `domain.Student` (unnamed part_003). -/
structure Student where
  Name : String
  Group : String
  Department : String
  Year : Int
deriving DecidableEq

/-- Go struct `domain.LessonTime` (unnamed part_003); `Date`, `StartTime`, `EndTime`
are the string forms of the corresponding `time.Time` values. -/
structure LessonTime where
  Date : String
  Number : Int
  PairHalf : Int
  Hours : Int
  StartTime : String
  EndTime : String
deriving DecidableEq

/-- Method `LessonTime.DateString` formats the date as "2006-01-02"; with dates
modelled by that string it is the identity on the `Date` field. -/
def LessonTime.DateString (t : LessonTime) : String := t.Date

/-- Go struct `domain.Lesson` (unnamed part_003). -/
structure Lesson where
  Time : LessonTime
  Discipline : String
  Teacher : String
  Cabinet : String
  Group : String
  Student : String
deriving DecidableEq

/-- Go struct `domain.Violation` (unnamed part_003). The Go field `Type` is spelled
`ViolationType` here because `Type` is reserved in Lean. -/
structure Violation where
  StudentName : String
  Group : String
  Year : Int
  Date : String
  ViolationType : String
  Hours : Int
deriving DecidableEq

/-- Constructor `domain.NewViolation`. -/
def NewViolation (studentName group : String) (year : Int) (date : String)
    (violationType : String) (hours : Int) : Violation :=
  { StudentName := studentName
    Group := group
    Year := year
    Date := date
    ViolationType := violationType
    Hours := hours }

/-- The zero value of `domain.Lesson` in Go. -/
def zeroLesson : Lesson :=
  { Time := { Date := "", Number := 0, PairHalf := 0, Hours := 0, StartTime := "", EndTime := "" }
    Discipline := "", Teacher := "", Cabinet := "", Group := "", Student := "" }

/-- Method `Validator.collectStudentSchedule` (unnamed part_003, lines 38-52): the
append loop over `v.lessons`, taking individual lessons matching the student's
name and group lessons matching the student's group. -/
def collectStudentSchedule (student : Student) : List Lesson → List Lesson
  | [] => []
  | lesson :: rest =>
    if lesson.Student ≠ "" ∧ lesson.Student = student.Name then
      lesson :: collectStudentSchedule student rest
    else if lesson.Student = "" ∧ lesson.Group = student.Group then
      lesson :: collectStudentSchedule student rest
    else
      collectStudentSchedule student rest

/-- Method `Validator.calculateLoad`: running total of `lesson.Time.Hours`. -/
def calculateLoad (dayLessons : List Lesson) : Int :=
  dayLessons.foldl (fun total lesson => total + lesson.Time.Hours) 0

/-- State of the loop inside `Validator.calculateGaps`: the running `minSlot`
and `maxSlot` and the keys inserted into the `occupiedSlots` map (as a list in
insertion order; the map's size is the number of distinct keys). -/
structure GapState where
  minSlot : Int
  maxSlot : Int
  occupied : List Int
deriving DecidableEq

/-- One iteration of the loop in `Validator.calculateGaps` (lines 130-156). -/
def gapStep (st : GapState) (lesson : Lesson) : GapState :=
  if lesson.Time.PairHalf = 0 then
    let slot1 := (lesson.Time.Number - 1) * 2
    let slot2 := slot1 + 1
    { minSlot := if slot1 < st.minSlot then slot1 else st.minSlot
      maxSlot := if slot2 > st.maxSlot then slot2 else st.maxSlot
      occupied := st.occupied ++ [slot1, slot2] }
  else
    let slot := (lesson.Time.Number - 1) * 2 + (lesson.Time.PairHalf - 1)
    { minSlot := if slot < st.minSlot then slot else st.minSlot
      maxSlot := if slot > st.maxSlot then slot else st.maxSlot
      occupied := st.occupied ++ [slot] }

/-- Go's `int(^uint(0) >> 1)` on a 64-bit platform: the initial `minSlot`. -/
def goMaxInt : Int := 2 ^ 63 - 1

/-- Method `Validator.calculateGaps` (unnamed part_003, lines 121-161). -/
def calculateGaps (dayLessons : List Lesson) : Int :=
  match dayLessons with
  | [] => 0
  | _ :: _ =>
    let st := dayLessons.foldl gapStep { minSlot := goMaxInt, maxSlot := -1, occupied := [] }
    (st.maxSlot - st.minSlot + 1) - st.occupied.dedup.length

/-- Method `Validator.validateDay` (unnamed part_003, lines 67-109). -/
def validateDay (student : Student) (dayLessons : List Lesson) : List Violation :=
  match dayLessons with
  | [] => []
  | first :: _ =>
    let date := first.Time.Date
    let totalHours := calculateLoad dayLessons
    let loadViolations :=
      if totalHours > 10 then
        [NewViolation student.Name student.Group student.Year date "Превышение нагрузки" totalHours]
      else []
    let gapPairs := calculateGaps dayLessons
    let maxGaps : Int := if student.Year = 1 then 2 else 4
    let gapViolations :=
      if gapPairs > maxGaps then
        [NewViolation student.Name student.Group student.Year date "Превышение окон" gapPairs]
      else []
    loadViolations ++ gapViolations

/-- The distinct date keys of `Validator.groupByDate`, in `List.dedup` order
(the Go map iterates them in unspecified order). -/
def dateKeys (lessons : List Lesson) : List String :=
  (lessons.map (fun l => l.Time.DateString)).dedup

/-- The group `groupByDate` builds for one date key: the sublist of lessons on
that date, in append order. -/
def lessonsOn (lessons : List Lesson) (d : String) : List Lesson :=
  lessons.filter (fun l => l.Time.DateString = d)

/-- Method `Validator.ValidateSchedule` (unnamed part_003, lines 20-35). -/
def ValidateSchedule (students : List Student) (lessons : List Lesson) : List Violation :=
  students.flatMap (fun student =>
    let studentSchedule := collectStudentSchedule student lessons
    (dateKeys studentSchedule).flatMap (fun d =>
      validateDay student (lessonsOn studentSchedule d)))

/-- C3's statement of the schedule-collection predicate, for comparison with
the loop `collectStudentSchedule`. -/
def belongsToStudent (student : Student) (lesson : Lesson) : Bool :=
  (lesson.Student ≠ "" ∧ lesson.Student = student.Name) ∨
  (lesson.Student = "" ∧ lesson.Group = student.Group)

theorem collect_eq_filter (student : Student) (lessons : List Lesson) :
    collectStudentSchedule student lessons = lessons.filter (belongsToStudent student) := by
  induction lessons with
  | nil => rfl
  | cons lesson rest ih =>
    rw [collectStudentSchedule, List.filter_cons, ih]
    by_cases h1 : lesson.Student ≠ "" ∧ lesson.Student = student.Name
    · have hb : belongsToStudent student lesson = true := by
        unfold belongsToStudent
        exact decide_eq_true (Or.inl h1)
      rw [if_pos h1, hb]
      simp
    · by_cases h2 : lesson.Student = "" ∧ lesson.Group = student.Group
      · have hb : belongsToStudent student lesson = true := by
          unfold belongsToStudent
          exact decide_eq_true (Or.inr h2)
        rw [if_neg h1, if_pos h2, hb]
        simp
      · have hb : belongsToStudent student lesson = false := by
          unfold belongsToStudent
          exact decide_eq_false (by tauto)
        rw [if_neg h1, if_neg h2, hb]
        simp

/-- C3 -- the schedule the detector evaluates for a student consists of
exactly the lessons with a non-empty student name equal to the student's name
plus the lessons with an empty student name whose group equals the student's
group: `collectStudentSchedule` is the filter of the lesson list by that
predicate (so no other lesson contributes to the student's violations). -/
theorem collectStudentSchedule_spec (student : Student) (lessons : List Lesson) :
    collectStudentSchedule student lessons = lessons.filter (belongsToStudent student) :=
  collect_eq_filter student lessons

theorem mem_collectStudentSchedule {student : Student} {lessons : List Lesson} {l : Lesson}
    (h : l ∈ collectStudentSchedule student lessons) : l ∈ lessons := by
  rw [collect_eq_filter] at h
  exact (List.mem_filter.mp h).1

theorem mem_lessonsOn {lessons : List Lesson} {d : String} {l : Lesson} :
    l ∈ lessonsOn lessons d ↔ l ∈ lessons ∧ l.Time.DateString = d := by
  simp [lessonsOn]

theorem lessonsOn_ne_nil_iff {lessons : List Lesson} {d : String} :
    lessonsOn lessons d ≠ [] ↔ ∃ l ∈ lessons, l.Time.DateString = d := by
  rw [lessonsOn, Ne, List.filter_eq_nil_iff]
  push_neg
  simp

theorem mem_dateKeys_iff {lessons : List Lesson} {d : String} :
    d ∈ dateKeys lessons ↔ ∃ l ∈ lessons, l.Time.DateString = d := by
  simp [dateKeys, List.mem_dedup, eq_comm]

theorem lessonsOn_head_date {lessons : List Lesson} {d : String} {first : Lesson}
    {rest : List Lesson} (hcons : lessonsOn lessons d = first :: rest) :
    first.Time.Date = d := by
  have hmem : first ∈ lessonsOn lessons d := by
    rw [hcons]; exact List.mem_cons_self _ _
  exact (mem_lessonsOn.mp hmem).2

theorem calculateLoad_eq_sum (dayLessons : List Lesson) :
    calculateLoad dayLessons = (dayLessons.map (fun l => l.Time.Hours)).sum := by
  rw [calculateLoad, List.sum_eq_foldl, List.foldl_map]

theorem mem_validateDay {student : Student} {first : Lesson} {rest : List Lesson} {v : Violation} :
    v ∈ validateDay student (first :: rest) ↔
      ((calculateLoad (first :: rest) > 10 ∧
        v = NewViolation student.Name student.Group student.Year first.Time.Date
              "Превышение нагрузки" (calculateLoad (first :: rest))) ∨
       (calculateGaps (first :: rest) > (if student.Year = 1 then (2 : Int) else 4) ∧
        v = NewViolation student.Name student.Group student.Year first.Time.Date
              "Превышение окон" (calculateGaps (first :: rest)))) := by
  by_cases hl : calculateLoad (first :: rest) > 10 <;>
    by_cases hg : calculateGaps (first :: rest) > (if student.Year = 1 then (2 : Int) else 4) <;>
      simp [validateDay, hl, hg]

theorem mem_ValidateSchedule {students : List Student} {lessons : List Lesson} {v : Violation} :
    v ∈ ValidateSchedule students lessons ↔
      ∃ s ∈ students, ∃ d ∈ dateKeys (collectStudentSchedule s lessons),
        v ∈ validateDay s (lessonsOn (collectStudentSchedule s lessons) d) := by
  simp [ValidateSchedule, List.mem_flatMap]

/-- The discretized half-slots a lesson occupies: both `(Number-1)*2` and
`(Number-1)*2+1` when `PairHalf = 0`, the single slot
`(Number-1)*2 + (PairHalf-1)` otherwise — exactly the slots inserted into
`occupiedSlots` by one iteration of `calculateGaps`. -/
def slotsOf (t : LessonTime) : List Int :=
  if t.PairHalf = 0 then [(t.Number - 1) * 2, (t.Number - 1) * 2 + 1]
  else [(t.Number - 1) * 2 + (t.PairHalf - 1)]

/-- All occupied half-slots of a day, in the order `calculateGaps` visits
them. -/
def occupiedSlots (day : List Lesson) : List Int :=
  day.flatMap (fun l => slotsOf l.Time)

/-- The gap count as claim C2 words it: (maximum occupied half-slot minus
minimum occupied half-slot plus 1) minus the number of distinct occupied
half-slots; stated independently of the source loop, for comparison with
`calculateGaps`. -/
def specGapCount (day : List Lesson) : Int :=
  match occupiedSlots day with
  | [] => 0
  | a :: t => (t.foldl max a - t.foldl min a + 1) - ((a :: t).dedup).length

theorem gapStep_eq (st : GapState) (l : Lesson) :
    gapStep st l = { minSlot := (slotsOf l.Time).foldl min st.minSlot
                     maxSlot := (slotsOf l.Time).foldl max st.maxSlot
                     occupied := st.occupied ++ slotsOf l.Time } := by
  by_cases hp : l.Time.PairHalf = 0
  · simp only [gapStep, slotsOf, hp, if_pos, List.foldl_cons, List.foldl_nil,
      GapState.mk.injEq, and_true]
    refine ⟨?_, ?_⟩
    · simp only [min_def]; split_ifs <;> omega
    · simp only [max_def]; split_ifs <;> omega
  · simp only [gapStep, slotsOf, hp, if_neg, if_false, List.foldl_cons, List.foldl_nil,
      GapState.mk.injEq, and_true]
    refine ⟨?_, ?_⟩
    · simp only [min_def]; split_ifs <;> omega
    · simp only [max_def]; split_ifs <;> omega

theorem occupiedSlots_cons (l : Lesson) (rest : List Lesson) :
    occupiedSlots (l :: rest) = slotsOf l.Time ++ occupiedSlots rest := by
  simp [occupiedSlots]

theorem foldl_gapStep_eq (day : List Lesson) : ∀ st : GapState,
    day.foldl gapStep st = { minSlot := (occupiedSlots day).foldl min st.minSlot
                             maxSlot := (occupiedSlots day).foldl max st.maxSlot
                             occupied := st.occupied ++ occupiedSlots day } := by
  induction day with
  | nil => intro st; simp [occupiedSlots]
  | cons l rest ih =>
    intro st
    rw [List.foldl_cons, gapStep_eq, ih, occupiedSlots_cons]
    simp [List.foldl_append, List.append_assoc]

theorem foldl_min_out (l : List Int) : ∀ b c : Int, l.foldl min (min b c) = min b (l.foldl min c) := by
  induction l with
  | nil => intro b c; simp
  | cons x t ih =>
    intro b c
    rw [List.foldl_cons, List.foldl_cons, min_assoc, ih]

theorem foldl_max_out (l : List Int) : ∀ b c : Int, l.foldl max (max b c) = max b (l.foldl max c) := by
  induction l with
  | nil => intro b c; simp
  | cons x t ih =>
    intro b c
    rw [List.foldl_cons, List.foldl_cons, max_assoc, ih]

theorem foldl_min_le (l : List Int) : ∀ a : Int, l.foldl min a ≤ a := by
  induction l with
  | nil => intro a; simp
  | cons x t ih =>
    intro a
    rw [List.foldl_cons]
    exact le_trans (ih (min a x)) (min_le_left a x)

theorem foldl_max_ge (l : List Int) : ∀ a : Int, a ≤ l.foldl max a := by
  induction l with
  | nil => intro a; simp
  | cons x t ih =>
    intro a
    rw [List.foldl_cons]
    exact le_trans (le_max_left a x) (ih (max a x))

theorem foldl_min_big {a b : Int} (l : List Int) (hab : a < b) :
    (a :: l).foldl min b = l.foldl min a := by
  rw [List.foldl_cons, foldl_min_out]
  exact min_eq_right (le_trans (foldl_min_le l a) (le_of_lt hab))

theorem foldl_max_small {a b : Int} (l : List Int) (hab : b < a) :
    (a :: l).foldl max b = l.foldl max a := by
  rw [List.foldl_cons, foldl_max_out]
  exact max_eq_right (le_trans (le_of_lt hab) (foldl_max_ge l a))

theorem occupiedSlots_bounds {day : List Lesson}
    (hw : ∀ l ∈ day, (l.Time.PairHalf = 0 ∨ l.Time.PairHalf = 1 ∨ l.Time.PairHalf = 2) ∧
        1 ≤ l.Time.Number ∧ l.Time.Number ≤ 7) :
    ∀ x ∈ occupiedSlots day, 0 ≤ x ∧ x ≤ 13 := by
  intro x hx
  rw [occupiedSlots, List.mem_flatMap] at hx
  obtain ⟨l, hl, hxl⟩ := hx
  obtain ⟨hh, hn1, hn2⟩ := hw l hl
  rw [slotsOf] at hxl
  by_cases hp : l.Time.PairHalf = 0
  · rw [if_pos hp] at hxl
    simp only [List.mem_cons, List.not_mem_nil, or_false] at hxl
    rcases hxl with rfl | rfl <;> omega
  · rw [if_neg hp] at hxl
    simp only [List.mem_cons, List.not_mem_nil, or_false] at hxl
    subst hxl
    rcases hh with h0 | h1 | h2
    · exact absurd h0 hp
    · rw [h1]; omega
    · rw [h2]; omega

theorem occupiedSlots_ne_nil {first : Lesson} {rest : List Lesson} :
    occupiedSlots (first :: rest) ≠ [] := by
  have hs : slotsOf first.Time ≠ [] := by
    rw [slotsOf]; split <;> simp
  intro h
  rw [occupiedSlots_cons, List.append_eq_nil] at h
  exact hs h.1

/-- The loop of `calculateGaps` computes exactly the claim's span-minus-count
formula, for a non-empty day of lessons with well-formed periods (1..7) and
half indicators (0, 1 or 2). -/
theorem calculateGaps_eq_specGapCount (day : List Lesson) (hne : day ≠ [])
    (hw : ∀ l ∈ day, (l.Time.PairHalf = 0 ∨ l.Time.PairHalf = 1 ∨ l.Time.PairHalf = 2) ∧
        1 ≤ l.Time.Number ∧ l.Time.Number ≤ 7) :
    calculateGaps day = specGapCount day := by
  rcases day with _ | ⟨first, rest⟩
  · exact absurd rfl hne
  · rcases hocc : occupiedSlots (first :: rest) with _ | ⟨a, t⟩
    · exact absurd hocc occupiedSlots_ne_nil
    · have ha : 0 ≤ a ∧ a ≤ 13 := by
        have := occupiedSlots_bounds hw
        rw [hocc] at this
        exact this a (List.mem_cons_self a t)
      have hmin : List.foldl min goMaxInt (a :: t) = t.foldl min a :=
        foldl_min_big t (by rw [goMaxInt]; omega)
      have hmax : List.foldl max (-1) (a :: t) = t.foldl max a :=
        foldl_max_small t (by omega)
      rw [calculateGaps, foldl_gapStep_eq]
      rw [specGapCount]
      rw [hocc]
      simp only [List.nil_append, hocc, hmin, hmax]

/-- C1 -- load rule: a "Превышение нагрузки" violation for name `N`, group `G`,
year `Y` and date `d` with magnitude `h` is produced by the detector exactly
when some student of the roster has those fields and the sum of the `Hours`
fields of that student's schedule on date `d` is strictly greater than 10, and
then `h` is that sum (so a day totalling exactly 10 never yields one). -/
theorem load_rule_iff (students : List Student) (lessons : List Lesson)
    (N G : String) (Y : Int) (d : String) (h : Int) :
    NewViolation N G Y d "Превышение нагрузки" h ∈ ValidateSchedule students lessons ↔
      ∃ s ∈ students, s.Name = N ∧ s.Group = G ∧ s.Year = Y ∧
        10 < ((lessonsOn (collectStudentSchedule s lessons) d).map (fun l => l.Time.Hours)).sum ∧
        h = ((lessonsOn (collectStudentSchedule s lessons) d).map (fun l => l.Time.Hours)).sum := by
  rw [mem_ValidateSchedule]
  constructor
  · rintro ⟨s, hs, d', hd', hv⟩
    rcases hcons : lessonsOn (collectStudentSchedule s lessons) d' with _ | ⟨first, rest⟩
    · rw [hcons] at hv; cases hv
    · rw [hcons] at hv
      rcases mem_validateDay.mp hv with ⟨hload, heq⟩ | ⟨_, heq⟩
      · have hfields := heq
        simp only [NewViolation, Violation.mk.injEq] at hfields
        obtain ⟨hN, hG, hY, hD, _, hH⟩ := hfields
        have hdd : d = d' := by rw [hD]; exact lessonsOn_head_date hcons
        refine ⟨s, hs, hN.symm, hG.symm, hY.symm, ?_, ?_⟩
        · rw [hdd, ← calculateLoad_eq_sum, hcons]; exact hload
        · rw [hdd, ← calculateLoad_eq_sum, hcons]; exact hH
      · exfalso
        simp only [NewViolation, Violation.mk.injEq] at heq
        exact absurd heq.2.2.2.2.1 (by decide)
  · rintro ⟨s, hs, hN, hG, hY, hsum, hh⟩
    refine ⟨s, hs, d, ?_, ?_⟩
    · rw [mem_dateKeys_iff, ← lessonsOn_ne_nil_iff]
      intro hnil
      rw [hnil] at hsum
      simp at hsum
    · rcases hcons : lessonsOn (collectStudentSchedule s lessons) d with _ | ⟨first, rest⟩
      · rw [hcons] at hsum; simp at hsum
      · rw [mem_validateDay]
        left
        have hload : calculateLoad (first :: rest) =
            ((lessonsOn (collectStudentSchedule s lessons) d).map (fun l => l.Time.Hours)).sum := by
          rw [calculateLoad_eq_sum, hcons]
        constructor
        · rw [hload]; exact hsum
        · rw [hN, hG, hY, hh, ← hload, lessonsOn_head_date hcons]

/-- C2 -- gap rule: the detector computes a day's gap count as the claim's
span-minus-occupancy formula over half-slots (`specGapCount`), and a
"Превышение окон" violation for name `N`, group `G`, year `Y`, date `d` with
magnitude `h` is produced exactly when some roster student has those fields and
the gap count of that student's day strictly exceeds 2 (year 1) resp. 4
(otherwise), with `h` equal to the gap count — so gap counts of exactly 2
resp. 4 never trigger.  Lessons are assumed well-formed per the data model:
half-period indicator in {0,1,2} and period number in 1..7. -/
theorem gaps_rule_iff (students : List Student) (lessons : List Lesson)
    (N G : String) (Y : Int) (d : String) (h : Int)
    (hw : ∀ l ∈ lessons, (l.Time.PairHalf = 0 ∨ l.Time.PairHalf = 1 ∨ l.Time.PairHalf = 2) ∧
        1 ≤ l.Time.Number ∧ l.Time.Number ≤ 7) :
    NewViolation N G Y d "Превышение окон" h ∈ ValidateSchedule students lessons ↔
      ∃ s ∈ students, s.Name = N ∧ s.Group = G ∧ s.Year = Y ∧
        (if Y = 1 then (2 : Int) else 4) <
          specGapCount (lessonsOn (collectStudentSchedule s lessons) d) ∧
        h = specGapCount (lessonsOn (collectStudentSchedule s lessons) d) := by
  rw [mem_ValidateSchedule]
  constructor
  · rintro ⟨s, hs, d', hd', hv⟩
    rcases hcons : lessonsOn (collectStudentSchedule s lessons) d' with _ | ⟨first, rest⟩
    · rw [hcons] at hv; cases hv
    · rw [hcons] at hv
      rcases mem_validateDay.mp hv with ⟨_, heq⟩ | ⟨hgap, heq⟩
      · exfalso
        simp only [NewViolation, Violation.mk.injEq] at heq
        exact absurd heq.2.2.2.2.1 (by decide)
      · simp only [NewViolation, Violation.mk.injEq] at heq
        obtain ⟨hN, hG, hY, hD, _, hH⟩ := heq
        have hdd : d = d' := by rw [hD]; exact lessonsOn_head_date hcons
        have hbridge : calculateGaps (first :: rest) = specGapCount (first :: rest) :=
          calculateGaps_eq_specGapCount _ (by simp)
            (fun l hl => hw l (mem_collectStudentSchedule
              (mem_lessonsOn.mp (show l ∈ lessonsOn (collectStudentSchedule s lessons) d' from by
                rw [hcons]; exact hl)).1))
        refine ⟨s, hs, hN.symm, hG.symm, hY.symm, ?_, ?_⟩
        · rw [hdd, hcons, ← hbridge, hY]
          exact hgap
        · rw [hdd, hcons, ← hbridge]
          exact hH
  · rintro ⟨s, hs, hN, hG, hY, hgap, hh⟩
    refine ⟨s, hs, d, ?_, ?_⟩
    · rw [mem_dateKeys_iff, ← lessonsOn_ne_nil_iff]
      intro hnil
      rw [hnil] at hgap
      have hz : specGapCount ([] : List Lesson) = 0 := rfl
      rw [hz] at hgap
      split_ifs at hgap <;> omega
    · rcases hcons : lessonsOn (collectStudentSchedule s lessons) d with _ | ⟨first, rest⟩
      · rw [hcons] at hgap
        have hz : specGapCount ([] : List Lesson) = 0 := rfl
        rw [hz] at hgap
        split_ifs at hgap <;> omega
      · rw [mem_validateDay]
        right
        have hbridge : calculateGaps (first :: rest) = specGapCount (first :: rest) :=
          calculateGaps_eq_specGapCount _ (by simp)
            (fun l hl => hw l (mem_collectStudentSchedule
              (mem_lessonsOn.mp (show l ∈ lessonsOn (collectStudentSchedule s lessons) d from by
                rw [hcons]; exact hl)).1))
        rw [hcons] at hgap
        constructor
        · rw [hbridge, hY]
          exact hgap
        · rw [hh, hN, hG, hY, hcons, lessonsOn_head_date hcons, hbridge]

/-- Witness for C2: the spec's own gap scenario — a year-1 student with
periods 1 and 4 fully occupied on one day (slots {0,1,6,7}, gap count 4 > 2)
does receive a "Превышение окон" violation of magnitude 4. -/
theorem gaps_rule_iff_witness :
    NewViolation "Иванов И.И." "МД-21-о" 1 "2025-03-10" "Превышение окон" 4 ∈
      ValidateSchedule [⟨"Иванов И.И.", "МД-21-о", "Факультет", 1⟩]
        [⟨⟨"2025-03-10", 1, 0, 2, "08:30", "10:00"⟩, "Вокал", "Петров А.А.", "К3-101", "МД-21-о", ""⟩,
         ⟨⟨"2025-03-10", 4, 0, 2, "13:40", "15:10"⟩, "Дирижирование", "Петров А.А.", "К3-102", "МД-21-о", ""⟩] :=
  (gaps_rule_iff _ _ "Иванов И.И." "МД-21-о" 1 "2025-03-10" 4 (by decide)).mpr (by decide)

/-! ## Grouping by key: shared machinery for the Go-map-based merge steps.

Each merge step of the two parsers builds a Go map from a key to the group of
records with that key and emits one record per group.  We model each such step
as a map over the distinct keys (in `List.dedup` order), each key processed on
the sublist of records having that key. -/

theorem filter_map_keys_eq {β κ : Type} [DecidableEq κ] (keys : List κ) (f : κ → β)
    (keyOf : β → κ) (k : κ) (hnd : keys.Nodup) (hk : ∀ k2 ∈ keys, keyOf (f k2) = k2)
    (hm : k ∈ keys) :
    (keys.map f).filter (fun y => keyOf y = k) = [f k] := by
  induction keys with
  | nil => cases hm
  | cons k0 ks ih =>
    rw [List.map_cons, List.filter_cons]
    rcases List.mem_cons.mp hm with rfl | hmem
    · have hcond : keyOf (f k) = k := hk k (List.mem_cons_self k ks)
      have hrest : (ks.map f).filter (fun y => keyOf y = k) = [] := by
        rw [List.filter_eq_nil_iff]
        intro y hy
        rw [List.mem_map] at hy
        obtain ⟨k2, hk2, rfl⟩ := hy
        have hkey : keyOf (f k2) = k2 := hk k2 (List.mem_cons_of_mem k hk2)
        simp only [hkey, decide_eq_true_eq]
        intro heq
        exact (List.nodup_cons.mp hnd).1 (heq ▸ hk2)
      rw [if_pos (by simp [hcond]), hrest]
    · have hne : k0 ≠ k := by
        intro he
        exact (List.nodup_cons.mp hnd).1 (he ▸ hmem)
      have hcond : keyOf (f k0) = k0 := hk k0 (List.mem_cons_self k0 ks)
      rw [if_neg (by simp [hcond, hne])]
      exact ih (List.nodup_cons.mp hnd).2 (fun k2 h2 => hk k2 (List.mem_cons_of_mem k0 h2)) hmem

theorem mem_keys_iff {α κ : Type} [DecidableEq κ] (key : α → κ) (xs : List α) (k : κ) :
    k ∈ (xs.map key).dedup ↔ ∃ x ∈ xs, key x = k := by
  simp [List.mem_dedup]

theorem filter_key_ne_nil {α κ : Type} [DecidableEq κ] (key : α → κ) (xs : List α) (k : κ) :
    xs.filter (fun x => key x = k) ≠ [] ↔ ∃ x ∈ xs, key x = k := by
  rw [Ne, List.filter_eq_nil_iff]
  push_neg
  simp

theorem mem_filter_key {α κ : Type} [DecidableEq κ] {key : α → κ} {xs : List α} {k : κ}
    {x : α} (hx : x ∈ xs.filter (fun x => key x = k)) : x ∈ xs ∧ key x = k := by
  have := List.mem_filter.mp hx
  exact ⟨this.1, by simpa using this.2⟩

theorem filter_grouped_output {α β κ : Type} [DecidableEq κ] (key : α → κ) (keyOf : β → κ)
    (proc : List α → β) (xs : List α) (k : κ)
    (hkey : ∀ k2 ∈ (xs.map key).dedup, keyOf (proc (xs.filter (fun x => key x = k2))) = k2)
    (hne : xs.filter (fun x => key x = k) ≠ []) :
    (((xs.map key).dedup).map (fun k2 => proc (xs.filter (fun x => key x = k2)))).filter
        (fun y => keyOf y = k) = [proc (xs.filter (fun x => key x = k))] := by
  apply filter_map_keys_eq _ _ _ _ (List.nodup_dedup _) hkey
  rw [mem_keys_iff, ← filter_key_ne_nil]
  exact hne

/-! ## The tabular parser's merge-across-instructors step. -/

/-- The composite key string built by `IndividualScheduleParser.mergeTeachers`
(unnamed part_004, lines 743-751) via `fmt.Sprintf` with "|" separators. -/
def teacherKey (l : Lesson) : String :=
  l.Time.DateString ++ "|" ++ toString l.Time.Number ++ "|" ++ toString l.Time.PairHalf ++ "|" ++
    l.Discipline ++ "|" ++ l.Cabinet ++ "|" ++ l.Group ++ "|" ++ l.Student

/-- Lexicographic comparison of character lists by code point: Go compares
strings byte-wise and on UTF-8 this coincides with code-point order. -/
def charsLt : List Char → List Char → Bool
  | [], [] => false
  | [], _ :: _ => true
  | _ :: _, [] => false
  | a :: as, b :: bs => a < b || (a == b && charsLt as bs)

def strLeB (a b : String) : Bool := charsLt a.data b.data || a == b

/-- Ascending-order insertion used by `sortStrings`. -/
def insertSorted (s : String) : List String → List String
  | [] => [s]
  | x :: xs => if strLeB s x then s :: x :: xs else x :: insertSorted s xs

/-- Go's `sort.Strings` (ascending byte-wise lexicographic order).  Modelled
as insertion sort: on the deduplicated teacher lists it is applied to, the
sorted result is unique, so any sorting algorithm is a faithful model. -/
def sortStrings : List String → List String
  | [] => []
  | x :: xs => insertSorted x (sortStrings xs)

/-- The per-group body of `mergeTeachers` (lines 755-776): a singleton group
passes through; a larger group keeps the first record with its `Teacher`
replaced by the sorted, "& "-joined distinct non-empty teacher names. -/
def mergeTeacherGroup (group : List Lesson) : Lesson :=
  match group with
  | [] => zeroLesson
  | l :: rest =>
    if 1 < (l :: rest).length then
      let teacherSet := (((l :: rest).map (fun x => x.Teacher)).filter (fun t => t ≠ "")).dedup
      let teachers := sortStrings teacherSet
      { l with Teacher := String.intercalate "& " teachers }
    else l

/-- Method `IndividualScheduleParser.mergeTeachers` (unnamed part_004, lines 740-778). -/
def mergeTeachers (lessons : List Lesson) : List Lesson :=
  ((lessons.map teacherKey).dedup).map (fun k =>
    mergeTeacherGroup (lessons.filter (fun l => teacherKey l = k)))

theorem mergeTeacherGroup_key {g : List Lesson} {k : String} (hg : g ≠ [])
    (hall : ∀ l ∈ g, teacherKey l = k) : teacherKey (mergeTeacherGroup g) = k := by
  rcases g with _ | ⟨l0, rest⟩
  · exact absurd rfl hg
  · have h0 : teacherKey l0 = k := hall l0 (List.mem_cons_self l0 rest)
    rw [mergeTeacherGroup]
    split_ifs with hlen
    · exact h0
    · exact h0

/-- The merged instructor field as claim C5 words it: the distinct non-empty
instructor names of the group, sorted lexicographically, joined with "& ". -/
def sortedTeacherJoin (group : List Lesson) : String :=
  let names := ((group.map (fun x => x.Teacher)).filter (fun t => t ≠ "")).dedup
  String.intercalate "& " (sortStrings names)

/-- C5 -- merge across instructors: all records sharing the full composite key
(date, period, half, discipline, room, group, student) are merged into exactly
one record, the first of the group with its instructor field replaced by the
lexicographically sorted "& "-join of the group's distinct non-empty
instructor names; a key held by exactly one record passes through unchanged. -/
theorem mergeTeachers_spec (lessons : List Lesson) (k : String) :
    (∀ l0, lessons.filter (fun l => teacherKey l = k) = [l0] →
        (mergeTeachers lessons).filter (fun l => teacherKey l = k) = [l0]) ∧
    (∀ l0 rest, rest ≠ [] → lessons.filter (fun l => teacherKey l = k) = l0 :: rest →
        (mergeTeachers lessons).filter (fun l => teacherKey l = k) =
          [{ l0 with Teacher := sortedTeacherJoin (l0 :: rest) }]) := by
  have hkey : ∀ k2 ∈ (lessons.map teacherKey).dedup,
      teacherKey (mergeTeacherGroup (lessons.filter (fun x => teacherKey x = k2))) = k2 := by
    intro k2 hk2
    have hne2 : lessons.filter (fun x => teacherKey x = k2) ≠ [] :=
      (filter_key_ne_nil _ _ _).mpr ((mem_keys_iff _ _ _).mp hk2)
    exact mergeTeacherGroup_key hne2 (fun l hl => (mem_filter_key hl).2)
  constructor
  · intro l0 hg
    have hne : lessons.filter (fun x => teacherKey x = k) ≠ [] := by rw [hg]; simp
    have hout := filter_grouped_output teacherKey teacherKey mergeTeacherGroup lessons k hkey hne
    calc (mergeTeachers lessons).filter (fun l => teacherKey l = k)
        = [mergeTeacherGroup (lessons.filter (fun x => teacherKey x = k))] := hout
      _ = [mergeTeacherGroup [l0]] := by rw [hg]
      _ = [l0] := rfl
  · intro l0 rest hrest hg
    have hne : lessons.filter (fun x => teacherKey x = k) ≠ [] := by rw [hg]; simp
    have hout := filter_grouped_output teacherKey teacherKey mergeTeacherGroup lessons k hkey hne
    have hlen : 1 < (l0 :: rest).length := by
      cases rest with
      | nil => exact absurd rfl hrest
      | cons a t => simp
    calc (mergeTeachers lessons).filter (fun l => teacherKey l = k)
        = [mergeTeacherGroup (lessons.filter (fun x => teacherKey x = k))] := hout
      _ = [mergeTeacherGroup (l0 :: rest)] := by rw [hg]
      _ = [{ l0 with Teacher := sortedTeacherJoin (l0 :: rest) }] := by
          rw [mergeTeacherGroup, if_pos hlen]
          rfl

/-- Witness for C5: two half-period records identical up to their instructors
"Сидоров Б.Б." (first) and "Петров А.А." (second) are merged into one record
whose instructor is the sorted join "Петров А.А.& Сидоров Б.Б.". -/
theorem mergeTeachers_spec_witness :
    (mergeTeachers
        [⟨⟨"2025-03-10", 2, 1, 1, "10:10", "11:40"⟩, "Вокал", "Сидоров Б.Б.", "К3-101", "", "Иванов И."⟩,
         ⟨⟨"2025-03-10", 2, 1, 1, "10:10", "11:40"⟩, "Вокал", "Петров А.А.", "К3-101", "", "Иванов И."⟩]).filter
        (fun l => teacherKey l =
          teacherKey ⟨⟨"2025-03-10", 2, 1, 1, "10:10", "11:40"⟩, "Вокал", "Сидоров Б.Б.", "К3-101", "", "Иванов И."⟩) =
      [⟨⟨"2025-03-10", 2, 1, 1, "10:10", "11:40"⟩, "Вокал", "Петров А.А.& Сидоров Б.Б.", "К3-101", "", "Иванов И."⟩] := by
  have h := (mergeTeachers_spec
      [⟨⟨"2025-03-10", 2, 1, 1, "10:10", "11:40"⟩, "Вокал", "Сидоров Б.Б.", "К3-101", "", "Иванов И."⟩,
       ⟨⟨"2025-03-10", 2, 1, 1, "10:10", "11:40"⟩, "Вокал", "Петров А.А.", "К3-101", "", "Иванов И."⟩]
      (teacherKey ⟨⟨"2025-03-10", 2, 1, 1, "10:10", "11:40"⟩, "Вокал", "Сидоров Б.Б.", "К3-101", "", "Иванов И."⟩)).2
    ⟨⟨"2025-03-10", 2, 1, 1, "10:10", "11:40"⟩, "Вокал", "Сидоров Б.Б.", "К3-101", "", "Иванов И."⟩
    [⟨⟨"2025-03-10", 2, 1, 1, "10:10", "11:40"⟩, "Вокал", "Петров А.А.", "К3-101", "", "Иванов И."⟩]
    (by decide) (by decide)
  rw [h]
  decide

/-! ## The tabular parser's rejoin-half-periods step. -/

/-- The `lessonKey` struct of `IndividualScheduleParser.joinIndLessons`
(unnamed part_004, lines 812-816): student, date string, period number. -/
def joinKey (l : Lesson) : String × String × Int :=
  (l.Student, l.Time.DateString, l.Time.Number)

/-- The per-key Go map `pairHalf → lesson` keeps, for each half, the last
record written with that half; the code reads only halves 1 and 2. -/
def lastHalf (group : List Lesson) (h : Int) : Option Lesson :=
  (group.filter (fun l => l.Time.PairHalf = h)).getLast?

/-- The body of the result loop of `joinIndLessons` (lines 837-886), applied
to `pairMap[1]` and `pairMap[2]`. -/
def joinPair : Option Lesson → Option Lesson → Lesson
  | some lesson1, some lesson2 =>
    let disc := if lesson1.Discipline = lesson2.Discipline then lesson1.Discipline else lesson1.Discipline ++ "/" ++ lesson2.Discipline
    let teach := if lesson1.Teacher = lesson2.Teacher then lesson1.Teacher else lesson1.Teacher ++ "/" ++ lesson2.Teacher
    let cab := if lesson1.Cabinet = lesson2.Cabinet then lesson1.Cabinet else lesson1.Cabinet ++ "/" ++ lesson2.Cabinet
    { lesson1 with
        Time := { lesson1.Time with PairHalf := 0, Hours := 2, EndTime := lesson2.Time.EndTime }
        Discipline := disc, Teacher := teach, Cabinet := cab }
  | some lesson1, none =>
    { lesson1 with Discipline := lesson1.Discipline ++ "/", Teacher := lesson1.Teacher ++ "/", Cabinet := lesson1.Cabinet ++ "/" }
  | none, some lesson2 =>
    { lesson2 with Discipline := "/" ++ lesson2.Discipline, Teacher := "/" ++ lesson2.Teacher, Cabinet := "/" ++ lesson2.Cabinet }
  | none, none => zeroLesson

/-- One iteration of the result loop of `joinIndLessons` on one key's group. -/
def joinGroup (group : List Lesson) : Lesson :=
  joinPair (lastHalf group 1) (lastHalf group 2)

/-- Method `IndividualScheduleParser.joinIndLessons` (unnamed part_004, lines
810-890): one output record per distinct (student, date, period) key. -/
def joinIndLessons (lessons : List Lesson) : List Lesson :=
  ((lessons.map joinKey).dedup).map (fun k =>
    joinGroup (lessons.filter (fun l => joinKey l = k)))

theorem lastHalf_some {group : List Lesson} {h : Int} {l : Lesson}
    (hl : lastHalf group h = some l) : l ∈ group ∧ l.Time.PairHalf = h := by
  have hm : l ∈ group.filter (fun x => x.Time.PairHalf = h) := List.mem_of_mem_getLast? hl
  have := List.mem_filter.mp hm
  exact ⟨this.1, by simpa using this.2⟩

theorem lastHalf_exists {g : List Lesson} (hg : g ≠ [])
    (hhalf : ∀ l ∈ g, l.Time.PairHalf = 1 ∨ l.Time.PairHalf = 2) :
    lastHalf g 1 ≠ none ∨ lastHalf g 2 ≠ none := by
  rcases hlast : g.getLast? with _ | ⟨llast⟩
  · exact absurd (List.getLast?_eq_none_iff.mp hlast) hg
  · have hmem := List.mem_of_mem_getLast? hlast
    rcases hhalf llast hmem with h1 | h2
    · left
      rw [lastHalf, Ne, List.getLast?_eq_none_iff, List.filter_eq_nil_iff]
      push_neg
      exact ⟨llast, hmem, by simp [h1]⟩
    · right
      rw [lastHalf, Ne, List.getLast?_eq_none_iff, List.filter_eq_nil_iff]
      push_neg
      exact ⟨llast, hmem, by simp [h2]⟩

theorem joinGroup_key {g : List Lesson} {k : String × String × Int}
    (hsome : lastHalf g 1 ≠ none ∨ lastHalf g 2 ≠ none)
    (hall : ∀ l ∈ g, joinKey l = k) : joinKey (joinGroup g) = k := by
  rcases ho1 : lastHalf g 1 with _ | ⟨l1⟩ <;> rcases ho2 : lastHalf g 2 with _ | ⟨l2⟩
  · rw [ho1, ho2] at hsome; simp at hsome
  · rw [joinGroup, ho1, ho2]; exact hall l2 (lastHalf_some ho2).1
  · rw [joinGroup, ho1, ho2]; exact hall l1 (lastHalf_some ho1).1
  · rw [joinGroup, ho1, ho2]; exact hall l1 (lastHalf_some ho1).1

/-- C4 -- rejoin half-periods, for a (student, date, period) key `k` of a list
of half-period records (every record has half 1 or 2).  When the key's group
holds both a half-1 and a half-2 record (the last-written one of each, per the
Go map semantics), exactly one record is emitted for that key: half 0,
duration 2, discipline/instructor/room joined with "/" when the two halves
differ and kept as the common value when equal, end time from the half-2
record (and start time, group and student from the half-1 record).  When only
one half is present, exactly one record is emitted: the record itself with "/"
appended (half 1) or prepended (half 2) to its discipline, instructor and
room. -/
theorem joinIndLessons_spec (lessons : List Lesson) (k : String × String × Int)
    (hhalf : ∀ l ∈ lessons, l.Time.PairHalf = 1 ∨ l.Time.PairHalf = 2) :
    (∀ l1 l2, lastHalf (lessons.filter (fun l => joinKey l = k)) 1 = some l1 →
        lastHalf (lessons.filter (fun l => joinKey l = k)) 2 = some l2 →
        (joinIndLessons lessons).filter (fun r => joinKey r = k) =
          [⟨⟨l1.Time.Date, l1.Time.Number, 0, 2, l1.Time.StartTime, l2.Time.EndTime⟩,
            (if l1.Discipline = l2.Discipline then l1.Discipline else l1.Discipline ++ "/" ++ l2.Discipline),
            (if l1.Teacher = l2.Teacher then l1.Teacher else l1.Teacher ++ "/" ++ l2.Teacher),
            (if l1.Cabinet = l2.Cabinet then l1.Cabinet else l1.Cabinet ++ "/" ++ l2.Cabinet),
            l1.Group, l1.Student⟩]) ∧
    (∀ l1, lastHalf (lessons.filter (fun l => joinKey l = k)) 1 = some l1 →
        lastHalf (lessons.filter (fun l => joinKey l = k)) 2 = none →
        (joinIndLessons lessons).filter (fun r => joinKey r = k) =
          [⟨l1.Time, l1.Discipline ++ "/", l1.Teacher ++ "/", l1.Cabinet ++ "/", l1.Group, l1.Student⟩]) ∧
    (∀ l2, lastHalf (lessons.filter (fun l => joinKey l = k)) 1 = none →
        lastHalf (lessons.filter (fun l => joinKey l = k)) 2 = some l2 →
        (joinIndLessons lessons).filter (fun r => joinKey r = k) =
          [⟨l2.Time, "/" ++ l2.Discipline, "/" ++ l2.Teacher, "/" ++ l2.Cabinet, l2.Group, l2.Student⟩]) := by
  have hkey : ∀ k2 ∈ (lessons.map joinKey).dedup,
      joinKey (joinGroup (lessons.filter (fun x => joinKey x = k2))) = k2 := by
    intro k2 hk2
    have hne2 : lessons.filter (fun x => joinKey x = k2) ≠ [] :=
      (filter_key_ne_nil _ _ _).mpr ((mem_keys_iff _ _ _).mp hk2)
    have hh2 : ∀ l ∈ lessons.filter (fun x => joinKey x = k2),
        l.Time.PairHalf = 1 ∨ l.Time.PairHalf = 2 :=
      fun l hl => hhalf l (mem_filter_key hl).1
    exact joinGroup_key (lastHalf_exists hne2 hh2) (fun l hl => (mem_filter_key hl).2)
  refine ⟨?_, ?_, ?_⟩
  · intro l1 l2 h1 h2
    have hne : lessons.filter (fun x => joinKey x = k) ≠ [] := by
      intro hnil
      rw [lastHalf, hnil] at h1
      cases h1
    have hout := filter_grouped_output joinKey joinKey joinGroup lessons k hkey hne
    calc (joinIndLessons lessons).filter (fun r => joinKey r = k)
        = [joinGroup (lessons.filter (fun x => joinKey x = k))] := hout
      _ = _ := by rw [joinGroup, h1, h2]; rfl
  · intro l1 h1 h2
    have hne : lessons.filter (fun x => joinKey x = k) ≠ [] := by
      intro hnil
      rw [lastHalf, hnil] at h1
      cases h1
    have hout := filter_grouped_output joinKey joinKey joinGroup lessons k hkey hne
    calc (joinIndLessons lessons).filter (fun r => joinKey r = k)
        = [joinGroup (lessons.filter (fun x => joinKey x = k))] := hout
      _ = _ := by rw [joinGroup, h1, h2]; rfl
  · intro l2 h1 h2
    have hne : lessons.filter (fun x => joinKey x = k) ≠ [] := by
      intro hnil
      rw [lastHalf, hnil] at h2
      cases h2
    have hout := filter_grouped_output joinKey joinKey joinGroup lessons k hkey hne
    calc (joinIndLessons lessons).filter (fun r => joinKey r = k)
        = [joinGroup (lessons.filter (fun x => joinKey x = k))] := hout
      _ = _ := by rw [joinGroup, h1, h2]; rfl

/-- Witness for C4: a half-1 "Вокал" record and a half-2 "Дирижирование"
record of the same student, date and period rejoin into one full-period
record with joined discipline and room, common instructor, and end time from
the second half. -/
theorem joinIndLessons_spec_witness :
    (joinIndLessons
        [⟨⟨"2025-03-10", 3, 1, 1, "11:50", "13:20"⟩, "Вокал", "Петров А.А.", "К3-101", "", "Иванов И."⟩,
         ⟨⟨"2025-03-10", 3, 2, 1, "11:50", "13:20"⟩, "Дирижирование", "Петров А.А.", "К3-102", "", "Иванов И."⟩]).filter
        (fun r => joinKey r = ("Иванов И.", "2025-03-10", 3)) =
      [⟨⟨"2025-03-10", 3, 0, 2, "11:50", "13:20"⟩, "Вокал/Дирижирование", "Петров А.А.", "К3-101/К3-102", "", "Иванов И."⟩] := by
  have h := (joinIndLessons_spec
      [⟨⟨"2025-03-10", 3, 1, 1, "11:50", "13:20"⟩, "Вокал", "Петров А.А.", "К3-101", "", "Иванов И."⟩,
       ⟨⟨"2025-03-10", 3, 2, 1, "11:50", "13:20"⟩, "Дирижирование", "Петров А.А.", "К3-102", "", "Иванов И."⟩]
      ("Иванов И.", "2025-03-10", 3) (by decide)).1
    ⟨⟨"2025-03-10", 3, 1, 1, "11:50", "13:20"⟩, "Вокал", "Петров А.А.", "К3-101", "", "Иванов И."⟩
    ⟨⟨"2025-03-10", 3, 2, 1, "11:50", "13:20"⟩, "Дирижирование", "Петров А.А.", "К3-102", "", "Иванов И."⟩
    (by decide) (by decide)
  rw [h]
  decide

/-! ## The remote group-schedule fetcher's deduplication. -/

/-- Go struct `infrastructure.LessonData` (unnamed part_004, lines 19-33): one raw
record of the remote JSON envelope. -/
structure LessonData where
  WeekDayNum : Int
  WeekDayDate : String
  WeekDateStart : String
  WeekDateEnd : String
  LessonNum : Int
  LessonTimeStart : String
  LessonTimeEnd : String
  DiscName : String
  DiscType : String
  DiscSubgroup : String
  TeacherName : String
  AuditName : String
  GroupName : String
deriving DecidableEq

/-- The zero value of `LessonData` in Go. -/
def zeroLessonData : LessonData := ⟨0, "", "", "", 0, "", "", "", "", "", "", "", ""⟩

/-- Function `createLesson` (unnamed part_004, lines 253-275); the `time.Parse` calls
are modelled as identities on the string forms. -/
def createLesson (data : LessonData) : Lesson :=
  let discipline := if data.DiscType ≠ "" then data.DiscName ++ " [" ++ data.DiscType ++ "]" else data.DiscName
  { Time := ⟨data.WeekDayDate, data.LessonNum, 0, 2, data.LessonTimeStart, data.LessonTimeEnd⟩
    Discipline := discipline
    Teacher := data.TeacherName
    Cabinet := data.AuditName
    Group := data.GroupName
    Student := "" }

/-- Function `mergeLessons` (unnamed part_004, lines 277-313): keep the first record,
joining disciplines (with type suffix) by " / ", teachers by " & " and rooms
by " / " across the group, in record order. -/
def mergeLessons (data : List LessonData) : LessonData :=
  match data with
  | [] => zeroLessonData
  | first :: rest =>
    let disciplines := (first :: rest).map (fun d => if d.DiscType ≠ "" then d.DiscName ++ " [" ++ d.DiscType ++ "]" else d.DiscName)
    let teachers := (first :: rest).map (fun d => d.TeacherName)
    let cabinets := (first :: rest).map (fun d => d.AuditName)
    { first with
        DiscName := String.intercalate " / " disciplines
        TeacherName := String.intercalate " & " teachers
        AuditName := String.intercalate " / " cabinets }

/-- The grouping key of `deduplicateLessons` (lines 221-224): date string and
period number. -/
def dedupKey (d : LessonData) : String × Int := (d.WeekDayDate, d.LessonNum)

/-- The per-group body of `deduplicateLessons` (lines 236-248): a singleton
group with the "no subgroup" sentinel "0" is emitted directly; any other
group is merged by `mergeLessons` first. -/
def dedupGroupLesson : List LessonData → Lesson
  | [d] => if d.DiscSubgroup = "0" then createLesson d else createLesson (mergeLessons [d])
  | g => createLesson (mergeLessons g)

/-- Function `deduplicateLessons` (unnamed part_004, lines 219-251): drop records of
the individual-lessons placeholder discipline, group by (date, period) and
emit one lesson per group. -/
def deduplicateLessons (lessonsData : List LessonData) : List Lesson :=
  (((lessonsData.filter (fun d => d.DiscName ≠ "Индивидуальные занятия")).map dedupKey).dedup).map
    (fun k => dedupGroupLesson ((lessonsData.filter (fun d => d.DiscName ≠ "Индивидуальные занятия")).filter
      (fun d => dedupKey d = k)))

theorem dedupGroupLesson_eq_createLesson (g : List LessonData) :
    ∃ d, dedupGroupLesson g = createLesson d := by
  rcases g with _ | ⟨d0, _ | ⟨d1, t⟩⟩
  · exact ⟨mergeLessons [], rfl⟩
  · rw [dedupGroupLesson]
    split_ifs with hs
    · exact ⟨d0, rfl⟩
    · exact ⟨mergeLessons [d0], rfl⟩
  · exact ⟨mergeLessons (d0 :: d1 :: t), rfl⟩

/-- C10 -- every lesson produced by the remote fetcher's deduplication has an
empty student name, half-period 0 and duration 2: the remote source never
yields individual or half-period lessons. -/
theorem remote_lessons_invariant (lessonsData : List LessonData) (l : Lesson)
    (hl : l ∈ deduplicateLessons lessonsData) :
    l.Student = "" ∧ l.Time.PairHalf = 0 ∧ l.Time.Hours = 2 := by
  rw [deduplicateLessons, List.mem_map] at hl
  obtain ⟨k, hk, rfl⟩ := hl
  obtain ⟨d, hd⟩ := dedupGroupLesson_eq_createLesson
    ((lessonsData.filter (fun d => d.DiscName ≠ "Индивидуальные занятия")).filter
      (fun x => dedupKey x = k))
  rw [hd]
  exact ⟨rfl, rfl, rfl⟩

/-- Witness for C10: a one-record fetch result yields one group lesson with
empty student, half 0 and two hours. -/
theorem remote_lessons_invariant_witness :
    (createLesson ⟨1, "2025-03-11", "2025-03-10", "2025-03-16", 2, "10:10", "11:40", "Сольфеджио", "", "0", "Петров А.А.", "К3-105", "МД-22-о"⟩ ∈
      deduplicateLessons
        [⟨1, "2025-03-11", "2025-03-10", "2025-03-16", 2, "10:10", "11:40", "Сольфеджио", "", "0", "Петров А.А.", "К3-105", "МД-22-о"⟩]) ∧
    ((createLesson ⟨1, "2025-03-11", "2025-03-10", "2025-03-16", 2, "10:10", "11:40", "Сольфеджио", "", "0", "Петров А.А.", "К3-105", "МД-22-о"⟩).Student = "" ∧
     (createLesson ⟨1, "2025-03-11", "2025-03-10", "2025-03-16", 2, "10:10", "11:40", "Сольфеджио", "", "0", "Петров А.А.", "К3-105", "МД-22-о"⟩).Time.PairHalf = 0 ∧
     (createLesson ⟨1, "2025-03-11", "2025-03-10", "2025-03-16", 2, "10:10", "11:40", "Сольфеджио", "", "0", "Петров А.А.", "К3-105", "МД-22-о"⟩).Time.Hours = 2) :=
  ⟨by decide, remote_lessons_invariant
    [⟨1, "2025-03-11", "2025-03-10", "2025-03-16", 2, "10:10", "11:40", "Сольфеджио", "", "0", "Петров А.А.", "К3-105", "МД-22-о"⟩]
    (createLesson ⟨1, "2025-03-11", "2025-03-10", "2025-03-16", 2, "10:10", "11:40", "Сольфеджио", "", "0", "Петров А.А.", "К3-105", "МД-22-о"⟩)
    (by decide)⟩

theorem dedupGroupLesson_key {g : List LessonData} {k : String × Int} (hg : g ≠ [])
    (hall : ∀ x ∈ g, dedupKey x = k) :
    ((dedupGroupLesson g).Time.Date, (dedupGroupLesson g).Time.Number) = k := by
  rcases g with _ | ⟨d0, _ | ⟨d1, t⟩⟩
  · exact absurd rfl hg
  · rw [dedupGroupLesson]
    split_ifs with hs
    · exact hall d0 (List.mem_cons_self d0 [])
    · exact hall d0 (List.mem_cons_self d0 [])
  · exact hall d0 (List.mem_cons_self d0 (d1 :: t))

/-- C7 -- merge idempotence on singleton groups: a (date, period) group of the
deduplication holding exactly one raw record whose subgroup tag is the
no-subgroup sentinel "0" is emitted directly as exactly one full-period lesson
(half 0, duration 2, empty student) whose discipline (with the bracketed type
suffix when a type is present), instructor, room, group, date, period and
times are carried over from the record unchanged. -/
theorem dedup_singleton_spec (lessonsData : List LessonData) (k : String × Int) (d : LessonData)
    (hg : (lessonsData.filter (fun x => x.DiscName ≠ "Индивидуальные занятия")).filter
        (fun x => dedupKey x = k) = [d])
    (hsub : d.DiscSubgroup = "0") :
    (deduplicateLessons lessonsData).filter (fun l => (l.Time.Date, l.Time.Number) = k) =
      [createLesson d] ∧
    (createLesson d).Time.PairHalf = 0 ∧ (createLesson d).Time.Hours = 2 ∧
    (createLesson d).Student = "" ∧
    (createLesson d).Discipline =
      (if d.DiscType ≠ "" then d.DiscName ++ " [" ++ d.DiscType ++ "]" else d.DiscName) ∧
    (createLesson d).Teacher = d.TeacherName ∧ (createLesson d).Cabinet = d.AuditName ∧
    (createLesson d).Group = d.GroupName ∧ (createLesson d).Time.Date = d.WeekDayDate ∧
    (createLesson d).Time.Number = d.LessonNum ∧
    (createLesson d).Time.StartTime = d.LessonTimeStart ∧
    (createLesson d).Time.EndTime = d.LessonTimeEnd := by
  have hkey : ∀ k2 ∈ ((lessonsData.filter (fun x => x.DiscName ≠ "Индивидуальные занятия")).map dedupKey).dedup,
      ((dedupGroupLesson ((lessonsData.filter (fun x => x.DiscName ≠ "Индивидуальные занятия")).filter
          (fun x => dedupKey x = k2))).Time.Date,
       (dedupGroupLesson ((lessonsData.filter (fun x => x.DiscName ≠ "Индивидуальные занятия")).filter
          (fun x => dedupKey x = k2))).Time.Number) = k2 := by
    intro k2 hk2
    have hne2 : (lessonsData.filter (fun x => x.DiscName ≠ "Индивидуальные занятия")).filter
        (fun x => dedupKey x = k2) ≠ [] :=
      (filter_key_ne_nil _ _ _).mpr ((mem_keys_iff _ _ _).mp hk2)
    exact dedupGroupLesson_key hne2 (fun x hx => (mem_filter_key hx).2)
  have hne : (lessonsData.filter (fun x => x.DiscName ≠ "Индивидуальные занятия")).filter
      (fun x => dedupKey x = k) ≠ [] := by
    rw [hg]; simp
  have hout := filter_grouped_output dedupKey (fun l => (l.Time.Date, l.Time.Number))
    dedupGroupLesson (lessonsData.filter (fun x => x.DiscName ≠ "Индивидуальные занятия")) k hkey hne
  refine ⟨?_, rfl, rfl, rfl, rfl, rfl, rfl, rfl, rfl, rfl, rfl, rfl⟩
  calc (deduplicateLessons lessonsData).filter (fun l => (l.Time.Date, l.Time.Number) = k)
      = [dedupGroupLesson ((lessonsData.filter (fun x => x.DiscName ≠ "Индивидуальные занятия")).filter
          (fun x => dedupKey x = k))] := hout
    _ = [dedupGroupLesson [d]] := by rw [hg]
    _ = [createLesson d] := by rw [dedupGroupLesson, if_pos hsub]

/-- Witness for C7: a single no-subgroup record passes through the
deduplication unchanged. -/
theorem dedup_singleton_spec_witness :
    (deduplicateLessons
        [⟨2, "2025-03-12", "2025-03-10", "2025-03-16", 3, "11:50", "13:20", "Гармония", "лек", "0", "Кузнецов В.В.", "К3-110", "МД-23-о"⟩]).filter
        (fun l => (l.Time.Date, l.Time.Number) = ("2025-03-12", 3)) =
      [createLesson ⟨2, "2025-03-12", "2025-03-10", "2025-03-16", 3, "11:50", "13:20", "Гармония", "лек", "0", "Кузнецов В.В.", "К3-110", "МД-23-о"⟩] :=
  (dedup_singleton_spec
    [⟨2, "2025-03-12", "2025-03-10", "2025-03-16", 3, "11:50", "13:20", "Гармония", "лек", "0", "Кузнецов В.В.", "К3-110", "МД-23-о"⟩]
    ("2025-03-12", 3)
    ⟨2, "2025-03-12", "2025-03-10", "2025-03-16", 3, "11:50", "13:20", "Гармония", "лек", "0", "Кузнецов В.В.", "К3-110", "МД-23-о"⟩
    (by decide) (by decide)).1

/-- Counterexample for C6: two records for the same (date, period) with
distinct subgroup tags and instructors "Петров А.А." (first) and
"Сидоров Б.Б." (second) are merged into one lesson whose instructor is
"Петров А.А. & Сидоров Б.Б." — joined with " & " in record order — which is
not the string "Петров А.А.& Сидоров Б.Б." the claim asserts. -/
theorem dedup_merge_counterexample :
    (deduplicateLessons
        [⟨1, "2025-03-10", "2025-03-10", "2025-03-16", 1, "08:30", "10:00", "Вокал", "", "1", "Петров А.А.", "К3-101", "МД-21-о"⟩,
         ⟨1, "2025-03-10", "2025-03-10", "2025-03-16", 1, "08:30", "10:00", "Вокал", "", "2", "Сидоров Б.Б.", "К3-102", "МД-21-о"⟩]).map
      (fun l => l.Teacher) = ["Петров А.А. & Сидоров Б.Б."] ∧
    ("Петров А.А. & Сидоров Б.Б." : String) ≠ "Петров А.А.& Сидоров Б.Б." := by
  decide

/-- C6 amended -- remote dedup of two same-slot records with instructors
"Петров А.А." and "Сидоров Б.Б.": exactly one merged lesson is produced, its
instructor is the two names joined in record order with the separator " & "
(yielding "Петров А.А. & Сидоров Б.Б."; no sorting is applied), its date,
period and time fields come from the first record, and it has half 0 and
duration 2. -/
theorem dedup_merge_pair_spec (a b : LessonData)
    (hk : dedupKey a = dedupKey b)
    (ha : a.DiscName ≠ "Индивидуальные занятия") (hb : b.DiscName ≠ "Индивидуальные занятия")
    (hta : a.TeacherName = "Петров А.А.") (htb : b.TeacherName = "Сидоров Б.Б.") :
    deduplicateLessons [a, b] = [createLesson (mergeLessons [a, b])] ∧
    (createLesson (mergeLessons [a, b])).Teacher = "Петров А.А. & Сидоров Б.Б." ∧
    (createLesson (mergeLessons [a, b])).Time.Date = a.WeekDayDate ∧
    (createLesson (mergeLessons [a, b])).Time.Number = a.LessonNum ∧
    (createLesson (mergeLessons [a, b])).Time.StartTime = a.LessonTimeStart ∧
    (createLesson (mergeLessons [a, b])).Time.EndTime = a.LessonTimeEnd ∧
    (createLesson (mergeLessons [a, b])).Time.PairHalf = 0 ∧
    (createLesson (mergeLessons [a, b])).Time.Hours = 2 := by
  have hfa : ([a, b].filter (fun d => d.DiscName ≠ "Индивидуальные занятия")) = [a, b] := by
    simp [List.filter_cons, ha, hb]
  have hf2 : ([a, b].filter (fun d => dedupKey d = dedupKey b)) = [a, b] := by
    simp [List.filter_cons, hk]
  have hkeys : (([a, b]).map dedupKey).dedup = [dedupKey b] := by
    rw [List.map_cons, List.map_cons, List.map_nil, hk]
    rw [List.dedup_cons_of_mem (by simp), List.dedup_cons_of_not_mem (by simp), List.dedup_nil]
  refine ⟨?_, ?_, rfl, rfl, rfl, rfl, rfl, rfl⟩
  · show ((([a, b].filter (fun d => d.DiscName ≠ "Индивидуальные занятия")).map dedupKey).dedup).map
        (fun k => dedupGroupLesson (([a, b].filter (fun d => d.DiscName ≠ "Индивидуальные занятия")).filter
          (fun d => dedupKey d = k))) = [createLesson (mergeLessons [a, b])]
    rw [hfa, hkeys, List.map_cons, List.map_nil, hf2]
    rfl
  · show String.intercalate " & " [a.TeacherName, b.TeacherName] = "Петров А.А. & Сидоров Б.Б."
    rw [hta, htb]
    rfl

/-- Witness for C6 (amended): the merge on two concrete raw records. -/
theorem dedup_merge_pair_spec_witness :
    deduplicateLessons
        [⟨1, "2025-03-10", "2025-03-10", "2025-03-16", 1, "08:30", "10:00", "Вокал", "", "1", "Петров А.А.", "К3-101", "МД-21-о"⟩,
         ⟨1, "2025-03-10", "2025-03-10", "2025-03-16", 1, "08:30", "10:00", "Хор", "", "2", "Сидоров Б.Б.", "К3-102", "МД-21-о"⟩] =
      [createLesson (mergeLessons
        [⟨1, "2025-03-10", "2025-03-10", "2025-03-16", 1, "08:30", "10:00", "Вокал", "", "1", "Петров А.А.", "К3-101", "МД-21-о"⟩,
         ⟨1, "2025-03-10", "2025-03-10", "2025-03-16", 1, "08:30", "10:00", "Хор", "", "2", "Сидоров Б.Б.", "К3-102", "МД-21-о"⟩])] :=
  (dedup_merge_pair_spec
    ⟨1, "2025-03-10", "2025-03-10", "2025-03-16", 1, "08:30", "10:00", "Вокал", "", "1", "Петров А.А.", "К3-101", "МД-21-о"⟩
    ⟨1, "2025-03-10", "2025-03-10", "2025-03-16", 1, "08:30", "10:00", "Хор", "", "2", "Сидоров Б.Б.", "К3-102", "МД-21-о"⟩
    (by decide) (by decide) (by decide) (by decide) (by decide)).1

/-! ## The tabular parser's student-name cell handling. -/

/-- Split a character list at every character satisfying `p`, keeping empty
pieces (the rune-level behaviour of Go's `strings.Split` for a one-rune
separator when `p` tests that rune). -/
def splitOnPredChars (p : Char → Bool) : List Char → List (List Char)
  | [] => [[]]
  | x :: xs =>
    let r := splitOnPredChars p xs
    if p x then [] :: r
    else
      match r with
      | [] => [[x]]
      | y :: ys => (x :: y) :: ys

/-- Go's `strings.Fields`: the maximal whitespace-separated words. -/
def goFields (s : String) : List String :=
  ((splitOnPredChars (fun c => c.isWhitespace) s.data).filter (fun w => w ≠ [])).map
    (fun w => String.mk w)

/-- Go's `strings.TrimSpace`: strip leading and trailing whitespace runes. -/
def goTrimSpace (s : String) : String :=
  String.mk (((s.data.dropWhile (fun c => c.isWhitespace)).reverse.dropWhile
    (fun c => c.isWhitespace)).reverse)

/-- Method `IndividualScheduleParser.extractStudentNames` (unnamed part_004, lines
696-715): an empty cell is an error; otherwise the whitespace-normalized cell
is split on "/" into trimmed names, and a cell without "/" yields the same
name twice. -/
def extractStudentNames (cell : String) : Option (List String) :=
  if cell = "" then none
  else
    let studentNameCell := String.intercalate " " (goFields cell)
    if studentNameCell.data.contains '/' then
      some ((splitOnPredChars (fun c => c = '/') studentNameCell.data).map
        (fun w => goTrimSpace (String.mk w)))
    else some [studentNameCell, studentNameCell]

/-- The record-building loop over the extracted student names inside
`IndividualScheduleParser.Parse` (unnamed part_004, lines 483-499): one
half-period record per name, with `pairHalf = index + 1`, `hoursStub = 1`,
and the group blanked when the extracted name is empty. -/
def mkIndLessons (date : String) (lessonNumber : Int)
    (disciplineName teacherName cabinetNumber groupName startTime endTime : String)
    (studentNames : List String) : List Lesson :=
  studentNames.enum.map (fun p =>
    let lessonGroup := if p.2 = "" then "" else groupName
    let hoursStub : Int := 1
    let pairHalf : Int := (p.1 : Int) + 1
    ⟨⟨date, lessonNumber, pairHalf, hoursStub, startTime, endTime⟩,
      disciplineName, teacherName, cabinetNumber, lessonGroup, p.2⟩)

/-- Counterexample for C8: a one-name cell ("Иванов И.", no "/") with a
non-empty extracted group "МД-21-о" yields records whose group field is kept
as "МД-21-о", not blanked — the code blanks the group only when the extracted
student name is empty, the opposite of the claim's condition. -/
theorem parse_individual_group_counterexample :
    extractStudentNames "Иванов И." = some ["Иванов И.", "Иванов И."] ∧
    (mkIndLessons "2025-03-10" 1 "Вокал" "Петрова А.А." "К3-101" "МД-21-о" "08:30" "10:00"
        ["Иванов И.", "Иванов И."]).map (fun l => l.Group) = ["МД-21-о", "МД-21-о"] ∧
    ("МД-21-о" : String) ≠ "" := by
  decide

/-- C8 amended -- each of the names extracted from a student-name cell yields
exactly one half-period record whose half-period equals the name's position
plus 1, and the record's group field is blanked (set to the empty string)
exactly when the extracted student name is empty; a record with a non-empty
student name keeps the extracted group. -/
theorem mkIndLessons_spec (date : String) (lessonNumber : Int)
    (disciplineName teacherName cabinetNumber groupName startTime endTime : String)
    (studentNames : List String) (i : Nat) (hi : i < studentNames.length) :
    (mkIndLessons date lessonNumber disciplineName teacherName cabinetNumber groupName
        startTime endTime studentNames).length = studentNames.length ∧
    (mkIndLessons date lessonNumber disciplineName teacherName cabinetNumber groupName
        startTime endTime studentNames)[i]? =
      some ⟨⟨date, lessonNumber, (i : Int) + 1, 1, startTime, endTime⟩,
        disciplineName, teacherName, cabinetNumber,
        (if studentNames[i] = "" then "" else groupName), studentNames[i]⟩ := by
  constructor
  · rw [mkIndLessons, List.length_map, List.enum_length]
  · rw [mkIndLessons, List.getElem?_map, List.getElem?_enum, List.getElem?_eq_getElem hi]
    rfl

/-- Witness for C8 (amended): the second name of a two-name cell gives a
half-2 record keeping the group. -/
theorem mkIndLessons_spec_witness :
    (mkIndLessons "2025-03-10" 1 "Вокал" "Петрова А.А." "К3-101" "МД-21-о" "08:30" "10:00"
        ["Иванов И.", "Сидорова А."]).length = 2 ∧
    (mkIndLessons "2025-03-10" 1 "Вокал" "Петрова А.А." "К3-101" "МД-21-о" "08:30" "10:00"
        ["Иванов И.", "Сидорова А."])[1]? =
      some ⟨⟨"2025-03-10", 1, 2, 1, "08:30", "10:00"⟩,
        "Вокал", "Петрова А.А.", "К3-101", "МД-21-о", "Сидорова А."⟩ :=
  mkIndLessons_spec "2025-03-10" 1 "Вокал" "Петрова А.А." "К3-101" "МД-21-о" "08:30" "10:00"
    ["Иванов И.", "Сидорова А."] 1 (by decide)

/-! ## The ingestion orchestration. -/

/-- Method `LessonsRepositoryImpl.GetLessons` (infrastructure/lessons_repository.go,
lines 92-142), with the IO made explicit as inputs: the result of the
individual-schedule parse, the cache lookup for the week, and the
per-(department, group) remote fetch results (goroutine completion order fixed
as list order; the claims do not depend on the order).  A failed individual
parse or a failed fetch is logged and contributes nothing; when the cache
hits, the remote fetches are skipped and the cached lessons are used. -/
def GetLessons (individualResult : Except String (List Lesson))
    (cachedGroupLessons : Option (List Lesson))
    (groupResults : List (Except String (List Lesson))) : Except String (List Lesson) :=
  let lessons := match individualResult with
    | Except.ok ls => ls
    | Except.error _ => []
  match cachedGroupLessons with
  | some cached => Except.ok (lessons ++ cached)
  | none =>
    Except.ok (lessons ++ groupResults.flatMap (fun r =>
      match r with
      | Except.ok ls => ls
      | Except.error _ => []))

/-- Counterexample for C9: when the individual parse fails with the
"no lessons found" error and the only remote fetch fails too — i.e. no lesson
could be parsed or fetched from any source — the ingestion still returns a
successful empty lesson set, not an error. -/
theorem ingestion_error_counterexample :
    GetLessons (Except.error "не найдено уроков в файлах") none
      [Except.error "failed to fetch departments"] = Except.ok [] := by
  rfl

/-- C9 amended -- the overall ingestion never returns an error: every failure
(the individual parse, a single (department, group) fetch, and even the case
where nothing at all was parsed or fetched) is logged and skipped, and the
detector run over the resulting empty lesson set produces zero violations
rather than a crash. -/
theorem ingestion_never_errors (individualResult : Except String (List Lesson))
    (cachedGroupLessons : Option (List Lesson))
    (groupResults : List (Except String (List Lesson))) :
    (GetLessons individualResult cachedGroupLessons groupResults).isOk = true ∧
    (∀ students : List Student, ValidateSchedule students [] = []) := by
  constructor
  · cases individualResult <;> cases cachedGroupLessons <;> rfl
  · intro students
    induction students with
    | nil => rfl
    | cons s rest ih =>
      rw [ValidateSchedule, List.flatMap_cons]
      rw [ValidateSchedule] at ih
      rw [ih]
      rfl
